import Mathlib

/-
Verification of the atoma capability-registry core: the trait registry,
the two-mode dispatcher, and the deriver.  The definitions below are a
shallow embedding of the runtime part of the source module (makeTrait,
hasImpl, registerImpl, getImpl, getTypeName, extractTypeName, invoke,
makeInvoker, getBound, makeDeriver).  Type-level constructs of the source
(phantom signatures, ImplFor, Implements, Bound, Bounds) carry no runtime
data and are not modelled.
-/

namespace Atoma

/-- A runtime JavaScript value, as far as the registry and the dispatcher
inspect one: the primitives that matter for truthiness, an opaque function
value, and objects carrying a field table together with the optional
type-identity tag (the value stored at TypeIdSymbol, read as ._name). -/
inductive JSVal : Type where
  | undefined : JSVal
  | null : JSVal
  | boolean (b : Bool) : JSVal
  | number (n : Int) : JSVal
  | string (s : String) : JSVal
  | fn (id : Nat) : JSVal
  | obj (fields : List (String × JSVal)) (tag : Option String) : JSVal

/-- JavaScript truthiness of a value, as tested by the source's
if (!implementation) guards. -/
def truthy : JSVal → Bool
  | .undefined => false
  | .null => false
  | .boolean b => b
  | .number n => n != 0
  | .string s => s != ""
  | .fn _ => true
  | .obj _ _ => true

/-- A trait value as built by makeTrait: the runtime name together with the
list of direct supertraits (the _supers field).  The phantom _signature
field carries no runtime data and is omitted. -/
inductive Trait : Type where
  | mk (name : String) (supers : List Trait) : Trait

/-- The _name field of a trait. -/
def Trait.name : Trait → String
  | .mk n _ => n

/-- The _supers field of a trait: its direct supertraits. -/
def Trait.supers : Trait → List Trait
  | .mk _ ss => ss

/-- The global TRAIT_IMPL_REGISTRY object, modelled as an association list
from key strings to stored values (property order is irrelevant to every
observation the source makes). -/
abbrev Registry : Type := List (String × JSVal)

/-- Property read on a string-keyed object: the value stored at the key,
if the key is present. -/
def lookupKey : Registry → String → Option JSVal
  | [], _ => none
  | (k1, v) :: rest, k => if k1 = k then some v else lookupKey rest k

/-- Property assignment on a string-keyed object: overwrite the binding at
the key if present, otherwise add it. -/
def setKey : Registry → String → JSVal → Registry
  | [], k, v => [(k, v)]
  | (k1, v1) :: rest, k, v =>
      if k1 = k then (k, v) :: rest else (k1, v1) :: setKey rest k v

/-- The registry key for a (trait, type) pair: the concatenation
traitName ++ "/" ++ typeName, exactly as the source's template literal
builds a TraitKey. -/
def traitKey (traitName typeName : String) : String :=
  traitName ++ "/" ++ typeName

/-- hasImpl: the key-in-object test on the registry. -/
def hasImpl (trait : Trait) (typeName : String) (reg : Registry) : Bool :=
  (lookupKey reg (traitKey trait.name typeName)).isSome

/-- getImpl: the property read on the registry; an absent key reads as
undefined, exactly as in the source. -/
def getImpl (trait : Trait) (typeName : String) (reg : Registry) : JSVal :=
  (lookupKey reg (traitKey trait.name typeName)).getD .undefined

/-- The errors the source throws, with the data their messages carry. -/
inductive TraitError : Type where
  | missingSupertrait (traitName typeName superName : String) : TraitError
  | notImplemented (traitName typeName : String) : TraitError
  | notDerivable (traitName typeName kind : String) : TraitError
  | typeError : TraitError
deriving DecidableEq

/-- The supertrait loop of registerImpl: walk the direct supertraits in
order and return the first one with no implementation for the type. -/
def findMissingSuper (supers : List Trait) (typeName : String) (reg : Registry) :
    Option Trait :=
  match supers with
  | [] => none
  | s :: rest =>
      if hasImpl s typeName reg then findMissingSuper rest typeName reg else some s

/-- registerImpl: validate every direct supertrait, then store the
implementation at the concatenated key.  The result pairs the outcome
(normal return or thrown error) with the registry state after the call. -/
def registerImpl (trait : Trait) (typeName : String) (implementation : JSVal)
    (reg : Registry) : Except TraitError Unit × Registry :=
  match findMissingSuper trait.supers typeName reg with
  | some s => (.error (.missingSupertrait trait.name typeName s.name), reg)
  | none => (.ok (), setKey reg (traitKey trait.name typeName) implementation)

/-- getTypeName: read the type-identity tag off a value.  A value with no
tag (any non-object, or an object never stamped) makes the source's
property chain throw a TypeError; that is the none case. -/
def getTypeName : JSVal → Option String
  | .obj _ tag => tag
  | _ => none

/-- extractTypeName: a string is returned as-is (it is already a type
name); anything else has its tag read. -/
def extractTypeName : JSVal → Option String
  | .string s => some s
  | v => getTypeName v

/-- Property read on an arbitrary value, used for implementation[method];
reads on non-objects yield undefined. -/
def getField : JSVal → String → JSVal
  | .obj fields _, name => (lookupKey fields name).getD .undefined
  | _, _ => .undefined

/-- invoke: resolve the type name from the target, look the implementation
up, fail with NotImplemented when the lookup is falsy, and otherwise call
the method, prepending the target as the self argument exactly when the
target was not a plain string.  The host's function application is the
parameter ap: the embedding does not interpret closures. -/
def invoke (ap : JSVal → List JSVal → JSVal) (trait : Trait) (target : JSVal)
    (method : String) (args : List JSVal) (reg : Registry) :
    Except TraitError JSVal :=
  match extractTypeName target with
  | none => .error .typeError
  | some typeName =>
      let implementation := getImpl trait typeName reg
      if truthy implementation then
        match target with
        | .string _ => .ok (ap (getField implementation method) args)
        | _ => .ok (ap (getField implementation method) (target :: args))
      else
        .error (.notImplemented trait.name typeName)

/-- makeInvoker: the returned closure forwards target and arguments to
invoke with the captured trait and method. -/
def makeInvoker (ap : JSVal → List JSVal → JSVal) (trait : Trait)
    (method : String) : JSVal → List JSVal → Registry → Except TraitError JSVal :=
  fun target args reg => invoke ap trait target method args reg

/-- getBound: look the implementation up and fail with NotImplemented when
the lookup is falsy, otherwise return the implementation itself. -/
def getBound (trait : Trait) (typeName : String) (reg : Registry) :
    Except TraitError JSVal :=
  let implementation := getImpl trait typeName reg
  if truthy implementation then .ok implementation
  else .error (.notImplemented trait.name typeName)

/-- The kind field of a TypeStructure. -/
inductive TSKind : Type where
  | struct : TSKind
  | sum : TSKind
  | newtype : TSKind
deriving DecidableEq

/-- The kind as the string interpolated into the NotDerivable message. -/
def TSKind.str : TSKind → String
  | .struct => "struct"
  | .sum => "sum"
  | .newtype => "newtype"

/-- A TypeStructure: kind, declared name, and the optional shape data
(struct fields, sum variants, newtype underlying name). -/
inductive TypeStructure : Type where
  | mk (kind : TSKind) (name : String) (fields : List (String × String))
      (variants : List (String × Option TypeStructure))
      (underlying : Option String) : TypeStructure

/-- The kind of a TypeStructure. -/
def TypeStructure.kind : TypeStructure → TSKind
  | .mk k _ _ _ _ => k

/-- The declared name of a TypeStructure. -/
def TypeStructure.name : TypeStructure → String
  | .mk _ n _ _ _ => n

/-- A Deriver: the trait, the canDerive predicate, and the derive
operation (stateful, like registerImpl). -/
structure Deriver : Type where
  trait : Trait
  canDerive : TypeStructure → Bool
  derive : TypeStructure → Registry → Except TraitError Unit × Registry

/-- makeDeriver: derive rejects a structure canDerive refuses with
NotDerivable, and otherwise builds the implementation with deriveImpl and
registers it under the structure's declared name. -/
def makeDeriver (trait : Trait) (canDerive : TypeStructure → Bool)
    (deriveImpl : TypeStructure → JSVal) : Deriver where
  trait := trait
  canDerive := canDerive
  derive := fun s reg =>
    if canDerive s then
      registerImpl trait s.name (deriveImpl s) reg
    else
      (.error (.notDerivable trait.name s.name s.kind.str), reg)

/-- A registry-mutating call: a direct registerImpl call, or a derive call
on a deriver built by makeDeriver. -/
inductive Op : Type where
  | callRegister (trait : Trait) (typeName : String) (implementation : JSVal) : Op
  | callDerive (trait : Trait) (canDerive : TypeStructure → Bool)
      (deriveImpl : TypeStructure → JSVal) (s : TypeStructure) : Op

/-- Run one call against a registry state. -/
def applyOp : Op → Registry → Except TraitError Unit × Registry
  | .callRegister t n i, reg => registerImpl t n i reg
  | .callDerive t cd di s, reg => (makeDeriver t cd di).derive s reg

/-- The trait a call registers for. -/
def opTrait : Op → Trait
  | .callRegister t _ _ => t
  | .callDerive t _ _ _ => t

/-- The type name a call registers under. -/
def opTypeName : Op → String
  | .callRegister _ n _ => n
  | .callDerive _ _ _ s => s.name

/-- The registry key a call writes if it succeeds. -/
def opKey (op : Op) : String :=
  traitKey (opTrait op).name (opTypeName op)

/-- The implementation value a call stores if it succeeds. -/
def opVal : Op → JSVal
  | .callRegister _ _ i => i
  | .callDerive _ _ di s => di s

/-- Run a sequence of calls, threading the registry state (a call that
throws leaves the state as it was). -/
def runOps : List Op → Registry → Registry
  | [], reg => reg
  | op :: ops, reg => runOps ops (applyOp op reg).2

/-- Registry states reachable from the initially empty registry by
successful registerImpl and derive calls only. -/
inductive Reachable : Registry → Prop where
  | empty : Reachable []
  | step (op : Op) (reg : Registry) : Reachable reg →
      (applyOp op reg).1 = .ok () → Reachable (applyOp op reg).2

/-- Registry states reachable from the initially empty registry by
successful calls whose traits are drawn from the family C. -/
inductive ReachableIn (C : Trait → Prop) : Registry → Prop where
  | empty : ReachableIn C []
  | step (op : Op) (reg : Registry) : ReachableIn C reg → C (opTrait op) →
      (applyOp op reg).1 = .ok () → ReachableIn C (applyOp op reg).2

/-- s is a transitive supertrait of t: a direct supertrait, or a
transitive supertrait of a direct supertrait. -/
inductive TransSuper : Trait → Trait → Prop where
  | direct {s t : Trait} : s ∈ t.supers → TransSuper s t
  | step {s u t : Trait} : TransSuper s u → u ∈ t.supers → TransSuper s t

/-- A family of traits closed under taking direct supertraits. -/
def SupersClosed (C : Trait → Prop) : Prop :=
  ∀ t, C t → ∀ s ∈ t.supers, C s

/-- The sequence of calls never successfully writes the key k, starting
from the given state. -/
def NoRewrite (k : String) : List Op → Registry → Prop
  | [], _ => True
  | op :: ops, reg =>
      ((applyOp op reg).1 = .ok () → opKey op ≠ k) ∧
      NoRewrite k ops (applyOp op reg).2

theorem lookupKey_setKey_self (reg : Registry) (k : String) (v : JSVal) :
    lookupKey (setKey reg k v) k = some v := by
  induction reg with
  | nil => simp [setKey, lookupKey]
  | cons hd tl ih =>
      obtain ⟨k1, v1⟩ := hd
      by_cases h : k1 = k
      · simp [setKey, h, lookupKey]
      · simp [setKey, h, lookupKey, ih]

theorem lookupKey_setKey_ne (reg : Registry) (k k2 : String) (v : JSVal)
    (h : k2 ≠ k) : lookupKey (setKey reg k v) k2 = lookupKey reg k2 := by
  induction reg with
  | nil => simp [setKey, lookupKey, Ne.symm h]
  | cons hd tl ih =>
      obtain ⟨k1, v1⟩ := hd
      by_cases hk : k1 = k
      · subst hk
        simp [setKey, lookupKey, Ne.symm h]
      · simp only [setKey, if_neg hk, lookupKey]
        split <;> simp [ih]

theorem hasImpl_setKey (t : Trait) (n : String) (reg : Registry) (k : String)
    (v : JSVal) :
    hasImpl t n (setKey reg k v) =
      (hasImpl t n reg || decide (traitKey t.name n = k)) := by
  by_cases h : traitKey t.name n = k
  · subst h
    simp [hasImpl, lookupKey_setKey_self]
  · simp [hasImpl, lookupKey_setKey_ne _ _ _ _ h, h]

theorem hasImpl_setKey_mono (t : Trait) (n : String) (reg : Registry) (k : String)
    (v : JSVal) (h : hasImpl t n reg = true) :
    hasImpl t n (setKey reg k v) = true := by
  rw [hasImpl_setKey, h, Bool.true_or]

theorem findMissingSuper_eq_none (supers : List Trait) (n : String) (reg : Registry) :
    findMissingSuper supers n reg = none ↔ ∀ s ∈ supers, hasImpl s n reg = true := by
  induction supers with
  | nil => simp [findMissingSuper]
  | cons hd tl ih =>
      by_cases h : hasImpl hd n reg = true
      · simp [findMissingSuper, h, ih]
      · simp [findMissingSuper, h]

theorem findMissingSuper_eq_some (supers : List Trait) (n : String) (reg : Registry)
    (s : Trait) (h : findMissingSuper supers n reg = some s) :
    s ∈ supers ∧ hasImpl s n reg = false := by
  induction supers with
  | nil => simp [findMissingSuper] at h
  | cons hd tl ih =>
      by_cases hc : hasImpl hd n reg = true
      · simp only [findMissingSuper, hc, if_true] at h
        obtain ⟨h1, h2⟩ := ih h
        exact ⟨List.mem_cons_of_mem _ h1, h2⟩
      · simp only [findMissingSuper] at h
        rw [if_neg hc] at h
        injection h with h
        subst h
        simp only [Bool.not_eq_true] at hc
        exact ⟨List.mem_cons_self _ _, hc⟩

theorem registerImpl_ok_iff (t : Trait) (n : String) (i : JSVal) (reg : Registry) :
    (registerImpl t n i reg).1 = .ok () ↔
      ∀ s ∈ t.supers, hasImpl s n reg = true := by
  rcases hf : findMissingSuper t.supers n reg with _ | s
  · simp only [registerImpl, hf]
    simp only [true_iff, eq_self_iff_true]
    exact (findMissingSuper_eq_none _ _ _).mp hf
  · simp only [registerImpl, hf]
    constructor
    · intro h
      cases h
    · intro hall
      obtain ⟨hmem, hfalse⟩ := findMissingSuper_eq_some _ _ _ _ hf
      rw [hall s hmem] at hfalse
      cases hfalse

theorem registerImpl_ok_state (t : Trait) (n : String) (i : JSVal) (reg : Registry)
    (h : (registerImpl t n i reg).1 = .ok ()) :
    (registerImpl t n i reg).2 = setKey reg (traitKey t.name n) i := by
  rcases hf : findMissingSuper t.supers n reg with _ | s
  · simp [registerImpl, hf]
  · simp [registerImpl, hf] at h

theorem registerImpl_error_state (t : Trait) (n : String) (i : JSVal) (reg : Registry)
    (e : TraitError) (h : (registerImpl t n i reg).1 = .error e) :
    (registerImpl t n i reg).2 = reg := by
  rcases hf : findMissingSuper t.supers n reg with _ | s
  · simp [registerImpl, hf] at h
  · simp [registerImpl, hf]

theorem registerImpl_error_shape (t : Trait) (n : String) (i : JSVal) (reg : Registry)
    (e : TraitError) (h : (registerImpl t n i reg).1 = .error e) :
    ∃ s, s ∈ t.supers ∧ hasImpl s n reg = false ∧
      e = .missingSupertrait t.name n s.name := by
  rcases hf : findMissingSuper t.supers n reg with _ | s
  · simp [registerImpl, hf] at h
  · obtain ⟨hmem, hfalse⟩ := findMissingSuper_eq_some _ _ _ _ hf
    refine ⟨s, hmem, hfalse, ?_⟩
    simp only [registerImpl, hf] at h
    cases h
    rfl

theorem applyOp_ok_state (op : Op) (reg : Registry)
    (h : (applyOp op reg).1 = .ok ()) :
    (applyOp op reg).2 = setKey reg (opKey op) (opVal op) := by
  cases op with
  | callRegister t n i =>
      exact registerImpl_ok_state t n i reg h
  | callDerive t cd di s =>
      by_cases hc : cd s = true
      · simp only [applyOp, makeDeriver, hc, if_true] at h ⊢
        exact registerImpl_ok_state t s.name (di s) reg h
      · simp only [applyOp, makeDeriver, hc, if_false] at h
        cases h

theorem applyOp_error_state (op : Op) (reg : Registry) (e : TraitError)
    (h : (applyOp op reg).1 = .error e) : (applyOp op reg).2 = reg := by
  cases op with
  | callRegister t n i =>
      exact registerImpl_error_state t n i reg e h
  | callDerive t cd di s =>
      by_cases hc : cd s = true
      · simp only [applyOp, makeDeriver, hc, if_true] at h ⊢
        exact registerImpl_error_state t s.name (di s) reg e h
      · simp [applyOp, makeDeriver, hc]

theorem applyOp_ok_supers (op : Op) (reg : Registry)
    (h : (applyOp op reg).1 = .ok ()) :
    ∀ s ∈ (opTrait op).supers, hasImpl s (opTypeName op) reg = true := by
  cases op with
  | callRegister t n i =>
      exact (registerImpl_ok_iff t n i reg).mp h
  | callDerive t cd di s =>
      by_cases hc : cd s = true
      · simp only [applyOp, makeDeriver, hc, if_true] at h
        exact (registerImpl_ok_iff t s.name (di s) reg).mp h
      · simp only [applyOp, makeDeriver, hc, if_false] at h
        cases h

theorem lookupKey_runOps (k : String) (v : JSVal) (ops : List Op) (reg : Registry)
    (h : lookupKey reg k = some v) (hnr : NoRewrite k ops reg) :
    lookupKey (runOps ops reg) k = some v := by
  induction ops generalizing reg with
  | nil => simpa [runOps] using h
  | cons op ops ih =>
      obtain ⟨h1, h2⟩ := hnr
      rw [runOps]
      rcases hres : (applyOp op reg).1 with e | u
      · refine ih _ ?_ h2
        rw [applyOp_error_state op reg e hres]
        exact h
      · cases u
        refine ih _ ?_ h2
        rw [applyOp_ok_state op reg hres,
          lookupKey_setKey_ne _ _ _ _ (Ne.symm (h1 hres))]
        exact h

theorem noSlash_append_inj (as : List Char) :
    ∀ (bs ns ms : List Char), '/' ∉ as → '/' ∉ bs →
      as ++ '/' :: ns = bs ++ '/' :: ms → as = bs ∧ ns = ms := by
  induction as with
  | nil =>
      intro bs ns ms _ hb h
      cases bs with
      | nil => simpa using h
      | cons b bs =>
          simp only [List.nil_append, List.cons_append, List.cons.injEq] at h
          obtain ⟨h1, _⟩ := h
          subst h1
          simp at hb
  | cons a as ih =>
      intro bs ns ms ha hb h
      cases bs with
      | nil =>
          simp only [List.cons_append, List.nil_append, List.cons.injEq] at h
          obtain ⟨h1, _⟩ := h
          subst h1
          simp at ha
      | cons b bs =>
          simp only [List.cons_append, List.cons.injEq] at h
          obtain ⟨h1, h2⟩ := h
          subst h1
          have ha2 : ('/' : Char) ∉ as := fun hm => ha (List.mem_cons_of_mem _ hm)
          have hb2 : ('/' : Char) ∉ bs := fun hm => hb (List.mem_cons_of_mem _ hm)
          obtain ⟨e1, e2⟩ := ih bs ns ms ha2 hb2 h2
          exact ⟨by rw [e1], e2⟩

theorem traitKey_inj (a b n m : String) (ha : '/' ∉ a.data) (hb : '/' ∉ b.data)
    (h : traitKey a n = traitKey b m) : a = b ∧ n = m := by
  have hd := congrArg String.data h
  simp only [traitKey, String.data_append] at hd
  have hd2 : a.data ++ '/' :: n.data = b.data ++ '/' :: m.data := by
    simpa [List.append_assoc] using hd
  obtain ⟨h1, h2⟩ := noSlash_append_inj a.data b.data n.data m.data ha hb hd2
  exact ⟨String.ext h1, String.ext h2⟩

/-- Claim C1: registerImpl succeeds and stores the entry exactly when every
supertrait directly listed on the trait already has a registered
implementation for the type name; otherwise it throws a MissingSupertrait
error naming the trait, the type and the missing supertrait and leaves the
registry unchanged.  The success condition is the direct-supertrait check
and nothing else, so no transitive walk happens. -/
theorem registerImpl_direct_supertrait_gate (t : Trait) (n : String) (i : JSVal)
    (reg : Registry) :
    ((registerImpl t n i reg).1 = .ok () ↔
      ∀ s ∈ t.supers, hasImpl s n reg = true)
    ∧ ((∀ s ∈ t.supers, hasImpl s n reg = true) →
        registerImpl t n i reg = (.ok (), setKey reg (traitKey t.name n) i))
    ∧ (¬ (∀ s ∈ t.supers, hasImpl s n reg = true) →
        ∃ s, s ∈ t.supers ∧ hasImpl s n reg = false ∧
          registerImpl t n i reg =
            (.error (.missingSupertrait t.name n s.name), reg)) := by
  refine ⟨registerImpl_ok_iff t n i reg, ?_, ?_⟩
  · intro hall
    have hok : (registerImpl t n i reg).1 = .ok () :=
      (registerImpl_ok_iff t n i reg).mpr hall
    have hst := registerImpl_ok_state t n i reg hok
    rw [Prod.ext_iff]
    exact ⟨hok, hst⟩
  · intro hne
    rcases hres : (registerImpl t n i reg).1 with e | u
    · obtain ⟨s, hmem, hfalse, he⟩ := registerImpl_error_shape t n i reg e hres
      refine ⟨s, hmem, hfalse, ?_⟩
      rw [Prod.ext_iff]
      exact ⟨by rw [hres, he], registerImpl_error_state t n i reg e hres⟩
    · cases u
      exact absurd ((registerImpl_ok_iff t n i reg).mp hres) hne

/-- Claim C2 as stated fails on the code: the supertrait check identifies
a trait by its name string alone.  Register the supertrait-free trait
named A for type T; then registering the trait B whose direct supertrait
is a distinct trait also named A but declaring the supertrait S succeeds,
because the check only looks the key A/T up.  The resulting reachable
state contains an implementation for B and T, S is a transitive supertrait
of B, and S has no implementation for T. -/
theorem supertrait_closure_cex :
    Reachable (applyOp
        (.callRegister (.mk "B" [.mk "A" [.mk "S" []]]) "T" (.number 2))
        (applyOp (.callRegister (.mk "A" []) "T" (.number 1)) []).2).2
    ∧ hasImpl (.mk "B" [.mk "A" [.mk "S" []]]) "T"
        (applyOp
          (.callRegister (.mk "B" [.mk "A" [.mk "S" []]]) "T" (.number 2))
          (applyOp (.callRegister (.mk "A" []) "T" (.number 1)) []).2).2 = true
    ∧ TransSuper (.mk "S" []) (.mk "B" [.mk "A" [.mk "S" []]])
    ∧ hasImpl (.mk "S" []) "T"
        (applyOp
          (.callRegister (.mk "B" [.mk "A" [.mk "S" []]]) "T" (.number 2))
          (applyOp (.callRegister (.mk "A" []) "T" (.number 1)) []).2).2
        = false := by
  refine ⟨?_, ?_, ?_, ?_⟩
  · exact Reachable.step _ _ (Reachable.step _ _ Reachable.empty rfl) rfl
  · rfl
  · exact TransSuper.step (TransSuper.direct (List.Mem.head _)) (List.Mem.head _)
  · rfl

/-- Claim C2 (amended): over registry states reachable from the empty
registry by successful registerImpl and derive calls whose traits are
drawn from a family closed under direct supertraits, in which distinct
traits have distinct names and no trait name contains the slash character,
the registry never contains an implementation for a trait of the family
and a type name without also containing an implementation for every
transitive supertrait of that trait for the same type name. -/
theorem supertrait_closure_invariant (C : Trait → Prop) (reg : Registry)
    (hclosed : SupersClosed C)
    (hnames : ∀ t1 t2, C t1 → C t2 → Trait.name t1 = Trait.name t2 → t1 = t2)
    (hslash : ∀ t, C t → '/' ∉ (Trait.name t).data)
    (hreach : ReachableIn C reg) :
    ∀ t, C t → ∀ n, hasImpl t n reg = true →
      ∀ s, TransSuper s t → hasImpl s n reg = true := by
  induction hreach with
  | empty =>
      intro t _ n h s _
      simp [hasImpl, lookupKey] at h
  | step op reg0 hre hCop hok ih =>
      intro t hCt n himp s hss
      rw [applyOp_ok_state op reg0 hok] at himp ⊢
      rw [hasImpl_setKey] at himp
      simp only [Bool.or_eq_true] at himp
      rcases himp with hold | hnew
      · exact hasImpl_setKey_mono _ _ _ _ _ (ih t hCt n hold s hss)
      · have hkey : traitKey t.name n =
            traitKey (opTrait op).name (opTypeName op) := of_decide_eq_true hnew
        obtain ⟨hname, hn⟩ := traitKey_inj _ _ _ _
          (hslash t hCt) (hslash _ hCop) hkey
        have ht : t = opTrait op := hnames t (opTrait op) hCt hCop hname
        subst hn
        subst ht
        have hsup := applyOp_ok_supers op reg0 hok
        cases hss with
        | direct hmem =>
            exact hasImpl_setKey_mono _ _ _ _ _ (hsup s hmem)
        | step hsu hmem =>
            rename_i u
            have hCu : C u := hclosed _ hCop u hmem
            exact hasImpl_setKey_mono _ _ _ _ _
              (ih u hCu (opTypeName op) (hsup u hmem) s hsu)

/-- Witness for the amended claim C2: with Eq (no supertraits) and Ord
(supertrait Eq) registered in order for the type Number, the invariant
instance for Ord yields that Eq is implemented for Number. -/
theorem supertrait_closure_invariant_witness :
    hasImpl (.mk "Eq" []) "Number"
      (applyOp (.callRegister (.mk "Ord" [.mk "Eq" []]) "Number" (.number 2))
        (applyOp (.callRegister (.mk "Eq" []) "Number" (.number 1)) []).2).2
      = true := by
  refine supertrait_closure_invariant
    (fun t => t = .mk "Ord" [.mk "Eq" []] ∨ t = .mk "Eq" []) _
    ?_ ?_ ?_ ?_ (.mk "Ord" [.mk "Eq" []]) (Or.inl rfl) "Number" ?_
    (.mk "Eq" []) (TransSuper.direct (List.Mem.head _))
  · intro t ht s hs
    rcases ht with h | h <;> subst h
    · right
      simpa [Trait.supers] using hs
    · simp [Trait.supers] at hs
  · intro t1 t2 h1 h2 hn
    rcases h1 with h1 | h1 <;> rcases h2 with h2 | h2 <;> subst h1 <;> subst h2 <;>
      first
        | rfl
        | exact absurd hn (by decide)
  · intro t ht
    rcases ht with h | h <;> subst h <;> decide
  · refine ReachableIn.step _ _
      (ReachableIn.step _ _ ReachableIn.empty (Or.inr rfl) rfl) (Or.inl rfl) ?_
    rfl
  · decide

/-- Claim C3: instance invocation of a tagged value whose type-identity
tag is the name N equals static invocation by the name N with the value
prepended as the leading self argument, for every host application
function, trait, method and trailing argument list; and a plain string
target never has anything prepended: on a successful static call the
implementation's method receives exactly the given arguments. -/
theorem invoke_instance_eq_static (ap : JSVal → List JSVal → JSVal) (t : Trait)
    (fields : List (String × JSVal)) (N method : String) (args : List JSVal)
    (reg : Registry) :
    invoke ap t (.obj fields (some N)) method args reg
      = invoke ap t (.string N) method (JSVal.obj fields (some N) :: args) reg
    ∧ ∀ (s : String) (bargs : List JSVal), truthy (getImpl t s reg) = true →
        invoke ap t (.string s) method bargs reg
          = .ok (ap (getField (getImpl t s reg) method) bargs) := by
  constructor
  · simp [invoke, extractTypeName, getTypeName]
  · intro s bargs h
    simp [invoke, extractTypeName, h]

/-- Claim C4: for a (trait, type) pair whose registry key is absent,
hasImpl is false and getImpl reads undefined (both total lookups reporting
absence as a value, never an error), while getBound, invoke on the type
name, invoke on a tagged value of that type, and invokers produced by
makeInvoker for either calling convention all fail with the NotImplemented
error carrying the trait name and the type name. -/
theorem unregistered_pair_behavior (ap : JSVal → List JSVal → JSVal) (t : Trait)
    (n method : String) (args : List JSVal) (fields : List (String × JSVal))
    (reg : Registry)
    (h : lookupKey reg (traitKey t.name n) = none) :
    hasImpl t n reg = false
    ∧ getImpl t n reg = .undefined
    ∧ getBound t n reg = .error (.notImplemented t.name n)
    ∧ invoke ap t (.string n) method args reg = .error (.notImplemented t.name n)
    ∧ invoke ap t (.obj fields (some n)) method args reg
        = .error (.notImplemented t.name n)
    ∧ makeInvoker ap t method (.string n) args reg
        = .error (.notImplemented t.name n)
    ∧ makeInvoker ap t method (.obj fields (some n)) args reg
        = .error (.notImplemented t.name n) := by
  have hget : getImpl t n reg = .undefined := by simp [getImpl, h]
  refine ⟨by simp [hasImpl, h], hget, ?_, ?_, ?_, ?_, ?_⟩
  · simp [getBound, hget, truthy]
  · simp [invoke, extractTypeName, hget, truthy]
  · simp [invoke, extractTypeName, getTypeName, hget, truthy]
  · simp [makeInvoker, invoke, extractTypeName, hget, truthy]
  · simp [makeInvoker, invoke, extractTypeName, getTypeName, hget, truthy]

/-- Witness for claim C4 at a concrete unregistered pair. -/
theorem unregistered_pair_behavior_witness :
    hasImpl (.mk "Show" []) "Number" [] = false
    ∧ getImpl (.mk "Show" []) "Number" [] = .undefined
    ∧ getBound (.mk "Show" []) "Number" []
        = .error (.notImplemented "Show" "Number")
    ∧ invoke (fun _ _ => .undefined) (.mk "Show" []) (.string "Number") "show" [] []
        = .error (.notImplemented "Show" "Number")
    ∧ invoke (fun _ _ => .undefined) (.mk "Show" [])
        (.obj [] (some "Number")) "show" [] []
        = .error (.notImplemented "Show" "Number")
    ∧ makeInvoker (fun _ _ => .undefined) (.mk "Show" []) "show"
        (.string "Number") [] []
        = .error (.notImplemented "Show" "Number")
    ∧ makeInvoker (fun _ _ => .undefined) (.mk "Show" []) "show"
        (.obj [] (some "Number")) [] []
        = .error (.notImplemented "Show" "Number") :=
  unregistered_pair_behavior (fun _ _ => .undefined) (.mk "Show" [])
    "Number" "show" [] [] [] rfl

/-- Claim C5: after a successful registerImpl, and across any further
sequence of registerImpl and derive calls none of which successfully
writes the same key, getImpl returns exactly the registered implementation
value and hasImpl returns true. -/
theorem register_then_lookup (t : Trait) (n : String) (i : JSVal) (reg : Registry)
    (ops : List Op)
    (hok : (registerImpl t n i reg).1 = .ok ())
    (hnr : NoRewrite (traitKey t.name n) ops (registerImpl t n i reg).2) :
    getImpl t n (runOps ops (registerImpl t n i reg).2) = i
    ∧ hasImpl t n (runOps ops (registerImpl t n i reg).2) = true := by
  have hbase : lookupKey (registerImpl t n i reg).2 (traitKey t.name n) = some i := by
    rw [registerImpl_ok_state t n i reg hok]
    exact lookupKey_setKey_self _ _ _
  have hrun := lookupKey_runOps _ _ ops _ hbase hnr
  constructor
  · simp [getImpl, hrun]
  · simp [hasImpl, hrun]

/-- Witness for claim C5: a registered Show implementation for Number is
still read back unchanged after a later registration under another key. -/
theorem register_then_lookup_witness :
    getImpl (.mk "Show" []) "Number"
      (runOps [.callRegister (.mk "Eq" []) "Number" (.number 1)]
        (registerImpl (.mk "Show" []) "Number" (.obj [("show", .fn 0)] none) []).2)
      = .obj [("show", .fn 0)] none
    ∧ hasImpl (.mk "Show" []) "Number"
      (runOps [.callRegister (.mk "Eq" []) "Number" (.number 1)]
        (registerImpl (.mk "Show" []) "Number" (.obj [("show", .fn 0)] none) []).2)
      = true :=
  register_then_lookup _ _ _ _ _ rfl ⟨fun _ => by decide, trivial⟩

/-- Claim C6: re-registering an already-registered (trait, type) key
succeeds and overwrites the entry wholesale: across any further calls that
never successfully write the key again, getImpl returns the second
implementation, hasImpl is true, and getBound and invoke on that pair are
determined by the second implementation alone; and the re-registration
leaves every other registry key exactly as it was. -/
theorem reregister_last_write_wins (ap : JSVal → List JSVal → JSVal) (t : Trait)
    (n : String) (i1 i2 : JSVal) (reg : Registry) (ops : List Op)
    (h1 : (registerImpl t n i1 reg).1 = .ok ())
    (hnr : NoRewrite (traitKey t.name n) ops
      (registerImpl t n i2 (registerImpl t n i1 reg).2).2) :
    (registerImpl t n i2 (registerImpl t n i1 reg).2).1 = .ok ()
    ∧ getImpl t n
        (runOps ops (registerImpl t n i2 (registerImpl t n i1 reg).2).2) = i2
    ∧ hasImpl t n
        (runOps ops (registerImpl t n i2 (registerImpl t n i1 reg).2).2) = true
    ∧ getBound t n
        (runOps ops (registerImpl t n i2 (registerImpl t n i1 reg).2).2)
        = (if truthy i2 then .ok i2 else .error (.notImplemented t.name n))
    ∧ (∀ (method : String) (bargs : List JSVal),
        invoke ap t (.string n) method bargs
          (runOps ops (registerImpl t n i2 (registerImpl t n i1 reg).2).2)
          = if truthy i2 then .ok (ap (getField i2 method) bargs)
            else .error (.notImplemented t.name n))
    ∧ ∀ k, k ≠ traitKey t.name n →
        lookupKey (registerImpl t n i2 (registerImpl t n i1 reg).2).2 k
          = lookupKey (registerImpl t n i1 reg).2 k := by
  have h2 : (registerImpl t n i2 (registerImpl t n i1 reg).2).1 = .ok () := by
    refine (registerImpl_ok_iff _ _ _ _).mpr fun s hs => ?_
    rw [registerImpl_ok_state t n i1 reg h1]
    exact hasImpl_setKey_mono _ _ _ _ _ ((registerImpl_ok_iff t n i1 reg).mp h1 s hs)
  have hbase : lookupKey (registerImpl t n i2 (registerImpl t n i1 reg).2).2
      (traitKey t.name n) = some i2 := by
    rw [registerImpl_ok_state _ _ _ _ h2]
    exact lookupKey_setKey_self _ _ _
  have hrun := lookupKey_runOps _ _ ops _ hbase hnr
  refine ⟨h2, by simp [getImpl, hrun], by simp [hasImpl, hrun], ?_, ?_, ?_⟩
  · by_cases ht : truthy i2 = true <;> simp [getBound, getImpl, hrun, ht]
  · intro method bargs
    by_cases ht : truthy i2 = true <;>
      simp [invoke, extractTypeName, getImpl, hrun, ht]
  · intro k hk
    rw [registerImpl_ok_state _ _ _ _ h2, lookupKey_setKey_ne _ _ _ _ hk]

/-- Witness for claim C6: re-registering Show for Number replaces the
method table and leaves the Eq entry untouched. -/
theorem reregister_last_write_wins_witness :
    (registerImpl (.mk "Show" []) "Number" (.obj [("show", .fn 1)] none)
      (registerImpl (.mk "Show" []) "Number" (.obj [("show", .fn 0)] none)
        [("Eq/Number", .number 1)]).2).1 = .ok ()
    ∧ getImpl (.mk "Show" []) "Number"
        (runOps [] (registerImpl (.mk "Show" []) "Number" (.obj [("show", .fn 1)] none)
          (registerImpl (.mk "Show" []) "Number" (.obj [("show", .fn 0)] none)
            [("Eq/Number", .number 1)]).2).2) = .obj [("show", .fn 1)] none
    ∧ hasImpl (.mk "Show" []) "Number"
        (runOps [] (registerImpl (.mk "Show" []) "Number" (.obj [("show", .fn 1)] none)
          (registerImpl (.mk "Show" []) "Number" (.obj [("show", .fn 0)] none)
            [("Eq/Number", .number 1)]).2).2) = true
    ∧ getBound (.mk "Show" []) "Number"
        (runOps [] (registerImpl (.mk "Show" []) "Number" (.obj [("show", .fn 1)] none)
          (registerImpl (.mk "Show" []) "Number" (.obj [("show", .fn 0)] none)
            [("Eq/Number", .number 1)]).2).2)
        = (if truthy (.obj [("show", .fn 1)] none)
            then .ok (.obj [("show", .fn 1)] none)
            else .error (.notImplemented "Show" "Number"))
    ∧ (∀ (method : String) (bargs : List JSVal),
        invoke (fun _ _ => JSVal.undefined) (.mk "Show" []) (.string "Number")
          method bargs
          (runOps [] (registerImpl (.mk "Show" []) "Number"
            (.obj [("show", .fn 1)] none)
            (registerImpl (.mk "Show" []) "Number" (.obj [("show", .fn 0)] none)
              [("Eq/Number", .number 1)]).2).2)
          = if truthy (.obj [("show", .fn 1)] none)
            then .ok ((fun _ _ => JSVal.undefined)
              (getField (.obj [("show", .fn 1)] none) method) bargs)
            else .error (.notImplemented "Show" "Number"))
    ∧ ∀ k, k ≠ traitKey "Show" "Number" →
        lookupKey (registerImpl (.mk "Show" []) "Number"
          (.obj [("show", .fn 1)] none)
          (registerImpl (.mk "Show" []) "Number" (.obj [("show", .fn 0)] none)
            [("Eq/Number", .number 1)]).2).2 k
          = lookupKey (registerImpl (.mk "Show" []) "Number"
              (.obj [("show", .fn 0)] none) [("Eq/Number", .number 1)]).2 k :=
  reregister_last_write_wins (fun _ _ => JSVal.undefined) (.mk "Show" [])
    "Number" (.obj [("show", .fn 0)] none) (.obj [("show", .fn 1)] none)
    [("Eq/Number", .number 1)] [] rfl trivial

/-- Claim C7: a deriver built by makeDeriver fails with a NotDerivable
error naming the trait, the structure's declared name and its kind exactly
when canDerive rejects the structure (leaving the registry unchanged);
when canDerive accepts it, the derive call is precisely registerImpl of
deriveImpl(s) under the name s.name, so it is subject to the same
direct-supertrait check and can fail with MissingSupertrait. -/
theorem makeDeriver_derive_spec (t : Trait) (cd : TypeStructure → Bool)
    (di : TypeStructure → JSVal) (s : TypeStructure) (reg : Registry) :
    (cd s = false →
      (makeDeriver t cd di).derive s reg
        = (.error (.notDerivable t.name s.name s.kind.str), reg))
    ∧ (cd s = true →
      (makeDeriver t cd di).derive s reg = registerImpl t s.name (di s) reg)
    ∧ (∀ a b c, ((makeDeriver t cd di).derive s reg).1
        = .error (.notDerivable a b c) → cd s = false) := by
  refine ⟨?_, ?_, ?_⟩
  · intro h
    simp [makeDeriver, h]
  · intro h
    simp [makeDeriver, h]
  · intro a b c h
    by_cases hc : cd s = true
    · simp only [makeDeriver, hc, if_true] at h
      obtain ⟨s2, _, _, he⟩ := registerImpl_error_shape _ _ _ _ _ h
      simp at he
    · simpa using hc

/-- Claim C8: failing calls are atomic: a registerImpl that throws
MissingSupertrait leaves the registry exactly as it was (the store happens
only after every supertrait check passed), a derive that throws
NotDerivable or MissingSupertrait leaves the registry exactly as it was,
and a derive rejected by canDerive never invokes deriveImpl: its whole
outcome is the same for any two deriveImpl functions. -/
theorem failed_calls_atomic (t : Trait) (n : String) (i : JSVal) (reg : Registry)
    (cd : TypeStructure → Bool) (di di2 : TypeStructure → JSVal)
    (s : TypeStructure) :
    (∀ e, (registerImpl t n i reg).1 = .error e → (registerImpl t n i reg).2 = reg)
    ∧ (∀ e, ((makeDeriver t cd di).derive s reg).1 = .error e →
        ((makeDeriver t cd di).derive s reg).2 = reg)
    ∧ (cd s = false →
        (makeDeriver t cd di).derive s reg
          = (makeDeriver t cd di2).derive s reg) := by
  refine ⟨fun e h => registerImpl_error_state t n i reg e h, ?_, ?_⟩
  · intro e h
    by_cases hc : cd s = true
    · simp only [makeDeriver, hc, if_true] at h ⊢
      exact registerImpl_error_state _ _ _ _ e h
    · simp [makeDeriver, hc]
  · intro h
    simp [makeDeriver, h]

/-- Claim C9: invoke and getBound decide absence by the truthiness of the
stored implementation value, not by key presence: when a falsy
implementation value is registered for a (trait, type) pair, hasImpl
reports true and getImpl returns that falsy value, yet getBound, invoke
(in both calling conventions) and an invoker from makeInvoker throw the
NotImplemented error for the same pair. -/
theorem falsy_impl_divergence (ap : JSVal → List JSVal → JSVal) (t : Trait)
    (n method : String) (args : List JSVal) (fields : List (String × JSVal))
    (reg : Registry) (i : JSVal)
    (hok : (registerImpl t n i reg).1 = .ok ())
    (hfalsy : truthy i = false) :
    hasImpl t n (registerImpl t n i reg).2 = true
    ∧ getImpl t n (registerImpl t n i reg).2 = i
    ∧ getBound t n (registerImpl t n i reg).2
        = .error (.notImplemented t.name n)
    ∧ invoke ap t (.string n) method args (registerImpl t n i reg).2
        = .error (.notImplemented t.name n)
    ∧ invoke ap t (.obj fields (some n)) method args (registerImpl t n i reg).2
        = .error (.notImplemented t.name n)
    ∧ makeInvoker ap t method (.string n) args (registerImpl t n i reg).2
        = .error (.notImplemented t.name n) := by
  have hbase : lookupKey (registerImpl t n i reg).2 (traitKey t.name n)
      = some i := by
    rw [registerImpl_ok_state t n i reg hok]
    exact lookupKey_setKey_self _ _ _
  have hget : getImpl t n (registerImpl t n i reg).2 = i := by
    simp [getImpl, hbase]
  refine ⟨by simp [hasImpl, hbase], hget, ?_, ?_, ?_, ?_⟩
  · simp [getBound, hget, hfalsy]
  · simp [invoke, extractTypeName, hget, hfalsy]
  · simp [invoke, extractTypeName, getTypeName, hget, hfalsy]
  · simp [makeInvoker, invoke, extractTypeName, hget, hfalsy]

/-- Witness for claim C9: the falsy implementation value 0 registered for
Show and Number makes hasImpl true and getImpl return 0, while getBound,
invoke and an invoker all throw NotImplemented. -/
theorem falsy_impl_divergence_witness :
    hasImpl (.mk "Show" []) "Number"
      (registerImpl (.mk "Show" []) "Number" (.number 0) []).2 = true
    ∧ getImpl (.mk "Show" []) "Number"
        (registerImpl (.mk "Show" []) "Number" (.number 0) []).2 = .number 0
    ∧ getBound (.mk "Show" []) "Number"
        (registerImpl (.mk "Show" []) "Number" (.number 0) []).2
        = .error (.notImplemented "Show" "Number")
    ∧ invoke (fun _ _ => JSVal.undefined) (.mk "Show" []) (.string "Number")
        "show" [] (registerImpl (.mk "Show" []) "Number" (.number 0) []).2
        = .error (.notImplemented "Show" "Number")
    ∧ invoke (fun _ _ => JSVal.undefined) (.mk "Show" [])
        (.obj [] (some "Number")) "show" []
        (registerImpl (.mk "Show" []) "Number" (.number 0) []).2
        = .error (.notImplemented "Show" "Number")
    ∧ makeInvoker (fun _ _ => JSVal.undefined) (.mk "Show" []) "show"
        (.string "Number") []
        (registerImpl (.mk "Show" []) "Number" (.number 0) []).2
        = .error (.notImplemented "Show" "Number") :=
  falsy_impl_divergence (fun _ _ => JSVal.undefined) (.mk "Show" [])
    "Number" "show" [] [] [] (.number 0) rfl rfl

/-- Claim C10: hasImpl, registerImpl and getImpl address a (trait, type)
pair only through the concatenated key string, so two pairs with equal
concatenations are aliases: the lookups agree on them, and a successful
registration of one makes hasImpl report the other as implemented and
overwrites the other's entry with the registered value, touching no other
key. -/
theorem key_collision_aliases (t1 t2 : Trait) (n1 n2 : String) (reg : Registry)
    (i : JSVal)
    (hk : traitKey t1.name n1 = traitKey t2.name n2) :
    hasImpl t1 n1 reg = hasImpl t2 n2 reg
    ∧ getImpl t1 n1 reg = getImpl t2 n2 reg
    ∧ ((registerImpl t1 n1 i reg).1 = .ok () →
        hasImpl t2 n2 (registerImpl t1 n1 i reg).2 = true
        ∧ getImpl t2 n2 (registerImpl t1 n1 i reg).2 = i
        ∧ ∀ k, k ≠ traitKey t2.name n2 →
            lookupKey (registerImpl t1 n1 i reg).2 k = lookupKey reg k) := by
  refine ⟨by simp [hasImpl, hk], by simp [getImpl, hk], fun hok => ?_⟩
  have hst := registerImpl_ok_state t1 n1 i reg hok
  rw [hk] at hst
  refine ⟨?_, ?_, ?_⟩
  · rw [hst]
    simp [hasImpl, lookupKey_setKey_self]
  · rw [hst]
    simp [getImpl, lookupKey_setKey_self]
  · intro k hkk
    rw [hst, lookupKey_setKey_ne _ _ _ _ hkk]

/-- Witness for claim C10 at the claim's example: the trait named A with
type name B/C and the trait named A/B with type name C share the key
A/B/C. -/
theorem key_collision_aliases_witness :
    hasImpl (.mk "A" []) "B/C" [] = hasImpl (.mk "A/B" []) "C" []
    ∧ getImpl (.mk "A" []) "B/C" [] = getImpl (.mk "A/B" []) "C" []
    ∧ ((registerImpl (.mk "A" []) "B/C" (.number 7) []).1 = .ok () →
        hasImpl (.mk "A/B" []) "C"
          (registerImpl (.mk "A" []) "B/C" (.number 7) []).2 = true
        ∧ getImpl (.mk "A/B" []) "C"
            (registerImpl (.mk "A" []) "B/C" (.number 7) []).2 = .number 7
        ∧ ∀ k, k ≠ traitKey "A/B" "C" →
            lookupKey (registerImpl (.mk "A" []) "B/C" (.number 7) []).2 k
              = lookupKey [] k) :=
  key_collision_aliases (.mk "A" []) (.mk "A/B" []) "B/C" "C" [] (.number 7) rfl

end Atoma
